import Mathlib

/-!
Verification development for the VidFX video-editing pipeline.

The Python source is shallowly embedded: frames are lists of 3-channel
pixels with natural-number (uint8) components, per-pixel float arithmetic
is modelled exactly over the rationals, numpy's `np.clip(x,0,255)` followed
by `astype(np.uint8)` is `quant8`, and stateful per-frame effects become
explicit state machines run over a list of input frames.  Strings are
modelled as `List Char`.
-/

namespace VidFX

/-! ### Pixels and quantization -/

/-- A 3-channel (R,G,B) uint8 pixel. -/
structure Pix where
  r : ℕ
  g : ℕ
  b : ℕ
deriving DecidableEq, Repr

/-- A frame is a flat list of pixels (per-pixel transforms do not care
about the row structure). -/
abbrev Frame := List Pix

/-- `np.clip(q, 0, 255).astype(np.uint8)` : clip to [0,255], then truncate.
After clipping the value is nonnegative, so truncation is the floor. -/
def quant8 (q : ℚ) : ℕ := (min 255 (max 0 ⌊q⌋)).toNat

/-- The [0,255] invariant on a pixel. -/
def pixOk (p : Pix) : Prop := p.r ≤ 255 ∧ p.g ≤ 255 ∧ p.b ≤ 255

instance (p : Pix) : Decidable (pixOk p) := by
  unfold pixOk
  infer_instance

/-! ### Filter units (src/filters)

Each Python filter factory returns a per-frame function; every filter here
is a per-pixel map lifted over the frame with `List.map` (the numpy code is
pixelwise).  `np.random.normal` grain is modelled as an explicit noise
argument.  Default parameter values follow the Python signatures. -/

/-- src/filters/greyscale.py: luminance dot product with `weights`,
contrast about 128 with `contrast_factor`, clip/quantize, replicate to
all three channels. -/
def greyscalePix (w0 w1 w2 contrast_factor : ℚ) (p : Pix) : Pix :=
  let grey : ℚ := w0 * p.r + w1 * p.g + w2 * p.b
  let grey2 : ℚ := (grey - 128) * contrast_factor + 128
  let q := quant8 grey2
  ⟨q, q, q⟩

def greyscale (w0 w1 w2 contrast_factor : ℚ) (frame : Frame) : Frame :=
  frame.map (greyscalePix w0 w1 w2 contrast_factor)

/-- src/filters/high_contrast.py: normalize to [0,1], push away from 0.5
by `contrast_factor`, rescale, clip, quantize. -/
def highContrastChan (contrast_factor : ℚ) (c : ℕ) : ℕ :=
  quant8 (((1 : ℚ) / 2 + ((c : ℚ) / 255 - 1 / 2) * contrast_factor) * 255)

def high_contrast (contrast_factor : ℚ) (p : Pix) : Pix :=
  ⟨highContrastChan contrast_factor p.r,
   highContrastChan contrast_factor p.g,
   highContrastChan contrast_factor p.b⟩

def highContrastFrame (contrast_factor : ℚ) (frame : Frame) : Frame :=
  frame.map (high_contrast contrast_factor)

/-- src/filters/film.py applied to one pixel, given that pixel's Gaussian
grain sample `(nr, ng, nb)`: add grain, warm tint multipliers, saturation
boost about luminance, clip, quantize. -/
def filmPix (grain : ℚ × ℚ × ℚ) (warm0 warm1 warm2 sat_factor : ℚ) (p : Pix) : Pix :=
  let r0 : ℚ := (p.r : ℚ) + grain.1
  let g0 : ℚ := (p.g : ℚ) + grain.2.1
  let b0 : ℚ := (p.b : ℚ) + grain.2.2
  let r1 := r0 * warm0
  let g1 := g0 * warm1
  let b1 := b0 * warm2
  let gray : ℚ := (299 / 1000) * r1 + (587 / 1000) * g1 + (114 / 1000) * b1
  ⟨quant8 (gray + (r1 - gray) * sat_factor),
   quant8 (gray + (g1 - gray) * sat_factor),
   quant8 (gray + (b1 - gray) * sat_factor)⟩

def film (noise : List (ℚ × ℚ × ℚ)) (warm0 warm1 warm2 sat_factor : ℚ)
    (frame : Frame) : Frame :=
  List.zipWith (fun n p => filmPix n warm0 warm1 warm2 sat_factor p) noise frame

/-- src/filters/purpleish.py: boost red / reduce green on bright-blue
pixels; the grey mask is computed from the already-modified red and green
channels; add fixed red/blue offsets on grey pixels; clip, quantize. -/
def purpleish (red_boost_blue green_reduction grey_red grey_blue : ℚ) (p : Pix) : Pix :=
  let r0 : ℚ := (p.r : ℚ)
  let g0 : ℚ := (p.g : ℚ)
  let b0 : ℚ := (p.b : ℚ)
  let blue_mask : Bool := decide (b0 > 100) && decide (b0 > r0) && decide (b0 > g0)
  let r1 : ℚ := if blue_mask then r0 + red_boost_blue else r0
  let g1 : ℚ := if blue_mask then g0 * green_reduction else g0
  let grey_mask : Bool :=
    decide (|r1 - g1| < 20) && decide (|r1 - b0| < 20) && decide (b0 > 30)
  let r2 : ℚ := if grey_mask then r1 + grey_red else r1
  let b2 : ℚ := if grey_mask then b0 + grey_blue else b0
  ⟨quant8 r2, quant8 g1, quant8 b2⟩

def purpleishFrame (red_boost_blue green_reduction grey_red grey_blue : ℚ)
    (frame : Frame) : Frame :=
  frame.map (purpleish red_boost_blue green_reduction grey_red grey_blue)

/-- src/filters/pink_future.py applied to one pixel: contrast and
brightness, clip, luminance mask from `shadow_threshold` (the
`highlight_threshold` parameter appears in the signature but is never
consulted: both masks compare against `shadow_threshold`), pink overlay
on the highlight mask, cyan overlay on the shadow mask, clip, quantize. -/
def pinkFuturePix (contrast brightness pink_strength cyan_strength
    shadow_threshold highlight_threshold : ℚ) (p : Pix) : Pix :=
  let clipQ : ℚ → ℚ := fun q => min 255 (max 0 q)
  let step : ℚ → ℚ := fun c => clipQ ((c - 128) * contrast + 128 + brightness)
  let r0 := step (p.r : ℚ)
  let g0 := step (p.g : ℚ)
  let b0 := step (p.b : ℚ)
  let gray : ℚ := (2126 / 10000) * r0 + (7152 / 10000) * g0 + (722 / 10000) * b0
  let gray_norm : ℚ := gray / 255
  let highlight : Bool := decide (gray_norm > shadow_threshold)
  let mix : ℚ → ℚ → ℚ → ℚ := fun c layer strength =>
    c * (1 - strength) + layer * strength
  let r1 := if highlight then mix r0 255 pink_strength else r0
  let g1 := if highlight then mix g0 130 pink_strength else g0
  let b1 := if highlight then mix b0 255 pink_strength else b0
  let shadow : Bool := decide (gray_norm < shadow_threshold)
  let r2 := if shadow then mix r1 0 cyan_strength else r1
  let g2 := if shadow then mix g1 255 cyan_strength else g1
  let b2 := if shadow then mix b1 255 cyan_strength else b1
  ⟨quant8 r2, quant8 g2, quant8 b2⟩

def pink_future (contrast brightness pink_strength cyan_strength
    shadow_threshold highlight_threshold : ℚ) (frame : Frame) : Frame :=
  frame.map (pinkFuturePix contrast brightness pink_strength cyan_strength
    shadow_threshold highlight_threshold)

/-! ### hue filter (src/filters/hue.py)

The Python code round-trips through OpenCV's 8-bit RGB↔HSV conversion
(`cv2.cvtColor`), adds `(degrees/360)*180` to the H channel modulo 180,
and converts back.  OpenCV's conversions are modelled with exact rational
arithmetic; `sat8` is OpenCV's saturating cast to uint8 with rounding. -/

/-- Round half up (`⌊q + 1/2⌋`) then saturate to [0,255] — OpenCV's
`saturate_cast<uchar>` applied to a rounded float. -/
def sat8 (q : ℚ) : ℕ := (min 255 (max 0 ⌊q + 1 / 2⌋)).toNat

/-- Models `cv2.cvtColor(·, cv2.COLOR_RGB2HSV)` on one 8-bit pixel:
V = max channel, S = 255·(V−min)/V, H = hue angle halved into [0,180). -/
def rgb2hsv (p : Pix) : ℕ × ℕ × ℕ :=
  let v : ℕ := max p.r (max p.g p.b)
  let mn : ℕ := min p.r (min p.g p.b)
  let diff : ℚ := (v : ℚ) - (mn : ℚ)
  let s : ℕ := if v = 0 then 0 else sat8 (255 * diff / (v : ℚ))
  let hdeg : ℚ :=
    if diff = 0 then 0
    else if p.r = v then 60 * ((p.g : ℚ) - (p.b : ℚ)) / diff
    else if p.g = v then 120 + 60 * ((p.b : ℚ) - (p.r : ℚ)) / diff
    else 240 + 60 * ((p.r : ℚ) - (p.g : ℚ)) / diff
  let hdeg2 : ℚ := if hdeg < 0 then hdeg + 360 else hdeg
  (sat8 (hdeg2 / 2), s, v)

/-- Assemble the RGB triple for hue sector `i` from the value and the
three chroma interpolants. -/
def hsvSector (v pc qc tc : ℕ) : ℕ → Pix
  | 0 => ⟨v, tc, pc⟩
  | 1 => ⟨qc, v, pc⟩
  | 2 => ⟨pc, v, tc⟩
  | 3 => ⟨pc, qc, v⟩
  | 4 => ⟨tc, pc, v⟩
  | _ => ⟨v, pc, qc⟩

/-- Models `cv2.cvtColor(·, cv2.COLOR_HSV2RGB)` on one 8-bit HSV pixel
(H in [0,180) halved degrees). -/
def hsv2rgb (h s v : ℕ) : Pix :=
  if s = 0 then ⟨v, v, v⟩
  else
    let h6 : ℚ := (2 * h : ℚ) / 60
    let i : ℕ := (⌊h6⌋).toNat % 6
    let f : ℚ := h6 - ⌊h6⌋
    let sQ : ℚ := (s : ℚ) / 255
    let pc : ℕ := sat8 ((v : ℚ) * (1 - sQ))
    let qc : ℕ := sat8 ((v : ℚ) * (1 - sQ * f))
    let tc : ℕ := sat8 ((v : ℚ) * (1 - sQ * (1 - f)))
    hsvSector v pc qc tc i

/-- `hsv[..., 0] = (hsv[..., 0] + (degrees / 360.0) * 180) % 180` followed
by the truncating `astype(np.uint8)` (the value is in [0,180) so the
truncation is a floor). -/
def hueShift (degrees : ℚ) (h : ℕ) : ℕ :=
  let q : ℚ := (h : ℚ) + degrees / 360 * 180
  let m : ℚ := q - 180 * ⌊q / 180⌋
  (⌊m⌋).toNat

/-- src/filters/hue.py on one pixel. -/
def huePix (degrees : ℚ) (p : Pix) : Pix :=
  let hsv := rgb2hsv p
  hsv2rgb (hueShift degrees hsv.1) hsv.2.1 hsv.2.2

def hue (degrees : ℚ) (frame : Frame) : Frame :=
  frame.map (huePix degrees)

/-! ### Effect units (src/effects)

The Python effect factories return stateful closures `apply(get_frame, t)`.
Each closure is embedded as a step function on an explicit state record,
and a clip traversal becomes `runEffect step s₀ inputs` where `inputs` is
the list of frames `get_frame` would yield in call order. -/

/-- Run a stateful per-frame step over a list of input frames, returning
the list of output frames. -/
def runEffect {σ α : Type} (step : σ → α → σ × α) : σ → List α → List α
  | _, [] => []
  | s, f :: fs =>
    let r := step s f
    r.2 :: runEffect step r.1 fs

/-- The closure state of src/effects/stop_motion.py:
`previous_frame = None`, `last_index = -1`. -/
structure StopState (α : Type) where
  previous_frame : Option α
  last_index : ℤ
deriving DecidableEq, Repr

/-- One call of stop_motion's `apply`: compute the call-order frame index,
replace the frame with the retained one at every `remove_every` interval
(passing through when nothing was retained yet — the replacement branch
never updates the retained frame), otherwise retain the frame. -/
def stopMotionStep {α : Type} (remove_every : ℤ) (st : StopState α) (frame : α) :
    StopState α × α :=
  let frame_index := st.last_index + 1
  if frame_index % remove_every = 0 then
    match st.previous_frame with
    | some prev => (⟨st.previous_frame, frame_index⟩, prev)
    | none => (⟨st.previous_frame, frame_index⟩, frame)
  else
    (⟨some frame, frame_index⟩, frame)

/-- src/effects/stop_motion.py run over a whole clip traversal. -/
def stop_motion {α : Type} (remove_every : ℤ) (inputs : List α) : List α :=
  runEffect (stopMotionStep remove_every) ⟨none, -1⟩ inputs

/-- The closure state of src/effects/photo_movement.py:
`previous_frame = None`, `duplicate_count = 0`, `last_index = -1`. -/
structure PhotoState (α : Type) where
  previous_frame : Option α
  duplicate_count : ℕ
  last_index : ℤ
deriving DecidableEq, Repr

/-- One call of photo_movement's `apply`: while in a duplication window,
decrement the counter and return the held frame (the `.getD frame`
default is unreachable from the initial state, where the window only
opens after a frame was held); on a trigger index, hold the current
frame and open a window of `duplicate_every` repeats; otherwise pass
through. -/
def photoMovementStep {α : Type} (duplicate_every : ℕ) (st : PhotoState α)
    (frame : α) : PhotoState α × α :=
  let frame_index := st.last_index + 1
  if st.duplicate_count > 0 then
    (⟨st.previous_frame, st.duplicate_count - 1, frame_index⟩,
     st.previous_frame.getD frame)
  else if frame_index % ((duplicate_every : ℤ) + 1) = 0 then
    (⟨some frame, duplicate_every, frame_index⟩, frame)
  else
    (⟨st.previous_frame, st.duplicate_count, frame_index⟩, frame)

/-- src/effects/photo_movement.py run over a whole clip traversal. -/
def photo_movement {α : Type} (duplicate_every : ℕ) (inputs : List α) : List α :=
  runEffect (photoMovementStep duplicate_every) ⟨none, 0, -1⟩ inputs

/-! ### Registries and name validation (src/filters/__init__.py,
src/effects/__init__.py)

Names and error messages are modelled as `List Char`.  `joinC` is
Python's `", ".join`.  The Python code iterates a `set` when printing the
valid names; the registry's insertion order is used here (the claimized
property — every valid name occurs in the message — does not depend on
the iteration order). -/

abbrev Name := List Char

/-- `", ".join(l)`. -/
def joinC (sep : Name) : List Name → Name
  | [] => []
  | [n] => n
  | n :: rest => n ++ sep ++ joinC sep rest

/-- Keys of FILTER_REGISTRY, in insertion order. -/
def FILTER_REGISTRY : List Name :=
  [("film").data, ("greyscale").data, ("high_contrast").data,
   ("purpleish").data, ("hue").data, ("pink_future").data]

/-- Keys of EFFECTS_REGISTRY, in insertion order. -/
def EFFECTS_REGISTRY : List Name :=
  [("photo_movement").data, ("stop_motion").data]

/-- `validate_filters`: collect the requested names missing from the
registry; if any, raise ValueError with a message listing all invalid
names and all valid names. -/
def validate_filters (filter_names : List Name) : Except Name Unit :=
  let invalid := filter_names.filter (fun n => !(FILTER_REGISTRY.contains n))
  if invalid.isEmpty then Except.ok ()
  else Except.error
    (("Invalid filters: ").data ++ joinC (", ").data invalid ++
     (". Valid filters are: ").data ++ joinC (", ").data FILTER_REGISTRY)

/-- `validate_effects`: same shape as `validate_filters` over the effects
registry. -/
def validate_effects (effect_names : List Name) : Except Name Unit :=
  let invalid := effect_names.filter (fun n => !(EFFECTS_REGISTRY.contains n))
  if invalid.isEmpty then Except.ok ()
  else Except.error
    (("Invalid effects: ").data ++ joinC (", ").data invalid ++
     (". Valid effects are: ").data ++ joinC (", ").data EFFECTS_REGISTRY)

/-! ### Junction-binding validation (src/main.py, validate_indexes) -/

/-- Python `str.split(sep)` for a one-character separator. -/
def splitOnAt (c : Char) : List Char → List (List Char)
  | [] => [[]]
  | x :: xs =>
    if x = c then [] :: splitOnAt c xs
    else
      match splitOnAt c xs with
      | [] => [[x]]
      | y :: ys => (x :: y) :: ys

/-- `int(...)` on a string of decimal digits. -/
def natOfDigits (ds : List Char) : ℕ :=
  ds.foldl (fun a c => 10 * a + (c.toNat - 48)) 0

/-- The distinct ValueError exits of `validate_indexes`, each carrying the
data interpolated into its message.  `unpack` is the ValueError Python
raises at `_, clip_position = transition.split("@")` when the token holds
more than one `@`. -/
inductive VErr where
  | format (t : Name)
  | notANumber (t : Name)
  | outOfBounds (n : ℕ)
  | duplicate (n : ℕ)
  | unpack (t : Name)
deriving DecidableEq, Repr

/-- The loop body of `validate_indexes`, with the accumulated
`used_transition_slots`. -/
def validateIndexesAux (max_length : ℕ) : List ℕ → List Name → Except VErr Unit
  | _, [] => Except.ok ()
  | used, t :: ts =>
    let parts := splitOnAt '@' t
    if ¬ ('@' ∈ t) ∨ parts.getD 1 [] = [] then Except.error (.format t)
    else
      match parts with
      | [_, clip_position] =>
        if clip_position.all Char.isDigit then
          let n := natOfDigits clip_position
          if 1 ≤ n ∧ n < max_length then
            if n ∈ used then Except.error (.duplicate n)
            else validateIndexesAux max_length (used ++ [n]) ts
          else Except.error (.outOfBounds n)
        else Except.error (.notANumber t)
      | _ => Except.error (.unpack t)

/-- src/main.py `validate_indexes(transitions_list, max_length)`. -/
def validate_indexes (transitions_list : List Name) (max_length : ℕ) :
    Except VErr Unit :=
  validateIndexesAux max_length [] transitions_list

/-! Specification-side acceptance predicate for a junction binding,
written from the spec's words: the token contains an `@`, the portion
after the first `@` is non-empty and all digits, its value `i` satisfies
`1 ≤ i < clip_count`, and `i` was not used by an earlier binding. -/

/-- The portion of `t` after the first occurrence of `c`, if any. -/
def afterFirst (c : Char) : List Char → Option (List Char)
  | [] => none
  | x :: xs => if x = c then some xs else afterFirst c xs

/-- Spec-side acceptance of a single binding given the indices already
used. -/
def goodBinding (clip_count : ℕ) (used : List ℕ) (t : Name) : Bool :=
  match afterFirst '@' t with
  | none => false
  | some rest =>
    !rest.isEmpty && rest.all Char.isDigit &&
      decide (1 ≤ natOfDigits rest ∧ natOfDigits rest < clip_count) &&
      !(used.contains (natOfDigits rest))

/-- The index a spec-side accepted binding names. -/
def bindingIndex (t : Name) : ℕ :=
  natOfDigits ((afterFirst '@' t).getD [])

/-- Spec-side sequential acceptance of a binding list. -/
def seqGood (clip_count : ℕ) : List ℕ → List Name → Bool
  | _, [] => true
  | used, t :: ts =>
    goodBinding clip_count used t && seqGood clip_count (used ++ [bindingIndex t]) ts

/-! ### ThreeBlocks transition (src/transitions/three_blocks.py)

Mask frames are matrices `List (List ℕ)` (rows of per-pixel mask values).
`int(GAP_RATIO * w)` and `int(BAR_RATIO * w)` with GAP_RATIO = 0.02 and
BAR_RATIO = 0.30 are modelled exactly as `2 * w / 100` and `30 * w / 100`
(natural floor division), and likewise `int(0.33 * h)`, `int(0.66 * h)`. -/

abbrev Mat := List (List ℕ)

/-- Number of horizontal blocks (`BARS = 3`). -/
def BARS : ℕ := 3

/-- The `for _ in range(BARS)` loop accumulating `(x1, x2)` pairs from a
cursor, advancing by `block + gap`. -/
def barsLoop (block gap : ℕ) : ℕ → ℕ → List (ℕ × ℕ)
  | 0, _ => []
  | k + 1, cursor => (cursor, cursor + block) :: barsLoop block gap k (cursor + block + gap)

/-- The geometry `ThreeBlocks.__post_init__` caches: vertical band, bar
x-ranges, and the pixel crops of the target clip's first frame. -/
structure TBGeom where
  y1 : ℕ
  y2 : ℕ
  xs : List (ℕ × ℕ)
  frame_crops : List Mat
deriving DecidableEq, Repr

/-- `frame[a:b, c:d]` on a matrix. -/
def cropMat (m : Mat) (a b c d : ℕ) : Mat :=
  ((m.drop a).take (b - a)).map (fun row => (row.drop c).take (d - c))

/-- `ThreeBlocks.__post_init__`, run on the target clip's first frame. -/
def postInit (frame : Mat) : TBGeom :=
  let h := frame.length
  let w := (frame.headD []).length
  let y1 := 33 * h / 100
  let y2 := 66 * h / 100
  let gap := 2 * w / 100
  let block := 30 * w / 100
  let used := BARS * block + (BARS - 1) * gap
  let remainder := w - used
  let left_pad := remainder / 2
  let xs := barsLoop block gap BARS left_pad
  ⟨y1, y2, xs, xs.map (fun xx => cropMat frame y1 y2 xx.1 xx.2)⟩

/-- numpy slice assignment `frame[y1:y2, x1:x2] = patch` (the shapes match
in every use in the source). -/
def pasteMat (m : Mat) (y1 y2 x1 x2 : ℕ) (patch : Mat) : Mat :=
  m.take y1 ++
    List.zipWith (fun row prow => row.take x1 ++ prow ++ row.drop x2)
      ((m.drop y1).take (y2 - y1)) patch ++
    m.drop y2

/-- Paste the first `k` cached bars into a frame. -/
def pasteBars (g : TBGeom) (k : ℕ) (m : Mat) : Mat :=
  (List.range k).foldl
    (fun acc i =>
      let xx := g.xs.getD i (0, 0)
      pasteMat acc g.y1 g.y2 xx.1 xx.2 (g.frame_crops.getD i [])) m

/-- Python `int(q)`: truncation toward zero. -/
def pyInt (q : ℚ) : ℤ := if 0 ≤ q then ⌊q⌋ else ⌈q⌉

/-- The body of the per-frame `filter(get_frame, t)` closure inside
`ThreeBlocks.apply`: the frame index is `int(t * clip.fps)`, computed from
the timestamp, and the three cumulative reveal blocks fire at indices
50, 70, 100. -/
def threeBlocksFilter (g : TBGeom) (fps : ℚ) (frame : Mat) (t : ℚ) : Mat :=
  let frame_index := pyInt (t * fps)
  let f1 := if frame_index ≥ 50 then pasteBars g 1 frame else frame
  let f2 := if frame_index ≥ 70 then pasteBars g 2 f1 else f1
  let f3 := if frame_index ≥ 100 then pasteBars g 3 f2 else f2
  f3

/-- A traversal of the transformed clip: each call supplies a timestamp
and the source-clip mask frame `get_frame(t)` returns; the outputs are in
call order. -/
def threeBlocksRun (g : TBGeom) (fps : ℚ) (calls : List (ℚ × Mat)) : List Mat :=
  calls.map (fun c => threeBlocksFilter g fps c.2 c.1)

/-- Horizontal extent covered by the three bars, from the first bar's left
edge to the last bar's right edge (bar widths plus the gaps between). -/
def barSpan (g : TBGeom) : ℕ := (g.xs.getLastD (0, 0)).2 - (g.xs.headD (0, 0)).1

/-- Pixels left of the first bar. -/
def leftMargin (g : TBGeom) : ℕ := (g.xs.headD (0, 0)).1

/-- Pixels right of the last bar, in a frame of width `w`. -/
def rightMargin (w : ℕ) (g : TBGeom) : ℕ := w - (g.xs.getLastD (0, 0)).2

/-- A 5×5 all-zero mask frame (test fixture). -/
def zeros5 : Mat := List.replicate 5 (List.replicate 5 0)

/-- A 5×5 all-one mask frame (test fixture). -/
def ones5 : Mat := List.replicate 5 (List.replicate 5 1)

/-! ## Theorems -/

theorem quant8_le (q : ℚ) : quant8 q ≤ 255 := by
  unfold quant8
  rw [min_def, max_def]
  split <;> split <;> omega

theorem quant8_natCast (n : ℕ) (h : n ≤ 255) : quant8 (n : ℚ) = n := by
  unfold quant8
  rw [Int.floor_natCast]
  omega

theorem sat8_le (q : ℚ) : sat8 q ≤ 255 := by
  unfold sat8
  rw [min_def, max_def]
  split <;> split <;> omega

theorem greyscalePix_pixOk (w0 w1 w2 cf : ℚ) (p : Pix) :
    pixOk (greyscalePix w0 w1 w2 cf p) := by
  unfold greyscalePix pixOk
  exact ⟨quant8_le _, quant8_le _, quant8_le _⟩

theorem filmPix_pixOk (n : ℚ × ℚ × ℚ) (w0 w1 w2 sf : ℚ) (p : Pix) :
    pixOk (filmPix n w0 w1 w2 sf p) := by
  unfold filmPix pixOk
  exact ⟨quant8_le _, quant8_le _, quant8_le _⟩

theorem high_contrast_pixOk (cf : ℚ) (p : Pix) : pixOk (high_contrast cf p) := by
  unfold high_contrast highContrastChan pixOk
  exact ⟨quant8_le _, quant8_le _, quant8_le _⟩

theorem purpleish_pixOk (a b c d : ℚ) (p : Pix) : pixOk (purpleish a b c d p) := by
  unfold purpleish pixOk
  exact ⟨quant8_le _, quant8_le _, quant8_le _⟩

theorem pinkFuturePix_pixOk (a b c d e f : ℚ) (p : Pix) :
    pixOk (pinkFuturePix a b c d e f p) := by
  unfold pinkFuturePix pixOk
  exact ⟨quant8_le _, quant8_le _, quant8_le _⟩

theorem hsvSector_pixOk (v pc qc tc i : ℕ) (hv : v ≤ 255) (hp : pc ≤ 255)
    (hq : qc ≤ 255) (ht : tc ≤ 255) : pixOk (hsvSector v pc qc tc i) := by
  unfold pixOk
  rcases i with _ | _ | _ | _ | _ | i
  · exact ⟨hv, ht, hp⟩
  · exact ⟨hq, hv, hp⟩
  · exact ⟨hp, hv, ht⟩
  · exact ⟨hp, hq, hv⟩
  · exact ⟨ht, hp, hv⟩
  · exact ⟨hv, hp, hq⟩

theorem hsv2rgb_pixOk (h s v : ℕ) (hv : v ≤ 255) : pixOk (hsv2rgb h s v) := by
  unfold hsv2rgb
  split
  · exact ⟨hv, hv, hv⟩
  · exact hsvSector_pixOk _ _ _ _ _ hv (sat8_le _) (sat8_le _) (sat8_le _)

theorem huePix_pixOk (degrees : ℚ) (p : Pix) (hp : pixOk p) :
    pixOk (huePix degrees p) := by
  unfold huePix
  apply hsv2rgb_pixOk
  show max p.r (max p.g p.b) ≤ 255
  rcases hp with ⟨h1, h2, h3⟩
  omega

theorem film_pixOk (noise : List (ℚ × ℚ × ℚ)) (w0 w1 w2 sf : ℚ) :
    ∀ frame : Frame, ∀ p ∈ film noise w0 w1 w2 sf frame, pixOk p := by
  induction noise with
  | nil =>
    intro frame p hp
    simp [film] at hp
  | cons n ns ih =>
    intro frame p hp
    cases frame with
    | nil => simp [film] at hp
    | cons q qs =>
      simp only [film, List.zipWith_cons_cons, List.mem_cons] at hp
      rcases hp with rfl | hp
      · exact filmPix_pixOk _ _ _ _ _ _
      · exact ih qs p hp

/-- Claim C9: each filter unit (greyscale, film, high_contrast, hue,
purpleish, pink_future) with its registry-default parameters, applied to
any 3-channel uint8 input frame, returns a frame whose channel values all
lie in [0,255]: every float computation is clipped and quantized before
returning (for film, for any Gaussian grain sample). -/
theorem c9_filters_preserve_uint8_range (frame : Frame)
    (hin : ∀ p ∈ frame, pixOk p) :
    (∀ p ∈ greyscale (299 / 1000) (587 / 1000) (114 / 1000) (13 / 10) frame, pixOk p) ∧
    (∀ noise : List (ℚ × ℚ × ℚ),
      ∀ p ∈ film noise (14 / 10) (13 / 10) (95 / 100) (12 / 10) frame, pixOk p) ∧
    (∀ p ∈ highContrastFrame (15 / 10) frame, pixOk p) ∧
    (∀ p ∈ hue 50 frame, pixOk p) ∧
    (∀ p ∈ purpleishFrame 100 (8 / 10) 40 30 frame, pixOk p) ∧
    (∀ p ∈ pink_future 1 0 (5 / 10) (5 / 10) (3 / 10) (7 / 10) frame, pixOk p) := by
  refine ⟨?_, ?_, ?_, ?_, ?_, ?_⟩
  · intro p hp
    rcases List.mem_map.mp hp with ⟨q, _, rfl⟩
    exact greyscalePix_pixOk _ _ _ _ _
  · intro noise p hp
    exact film_pixOk noise _ _ _ _ frame p hp
  · intro p hp
    rcases List.mem_map.mp hp with ⟨q, _, rfl⟩
    exact high_contrast_pixOk _ _
  · intro p hp
    rcases List.mem_map.mp hp with ⟨q, hq, rfl⟩
    exact huePix_pixOk _ _ (hin q hq)
  · intro p hp
    rcases List.mem_map.mp hp with ⟨q, _, rfl⟩
    exact purpleish_pixOk _ _ _ _ _
  · intro p hp
    rcases List.mem_map.mp hp with ⟨q, _, rfl⟩
    exact pinkFuturePix_pixOk _ _ _ _ _ _ _

theorem c9_filters_preserve_uint8_range_witness :
    pixOk (huePix 50 ⟨10, 20, 30⟩) :=
  (c9_filters_preserve_uint8_range [⟨10, 20, 30⟩] (by decide)).2.2.2.1
    (huePix 50 ⟨10, 20, 30⟩) (by simp [hue])

/-- Claim C4: the pink_future filter's output is independent of its
`highlight_threshold` parameter — for every input frame and every two
values `h1`, `h2` of the parameter (all other parameters equal), the two
filters produce identical output frames, because both the highlight mask
and the shadow mask are computed from `shadow_threshold` alone. -/
theorem c4_pink_future_highlight_threshold_dead
    (contrast brightness pink_strength cyan_strength shadow_threshold : ℚ)
    (h1 h2 : ℚ) (frame : Frame) :
    pink_future contrast brightness pink_strength cyan_strength
        shadow_threshold h1 frame =
      pink_future contrast brightness pink_strength cyan_strength
        shadow_threshold h2 frame := rfl

/-- Claim C5: `stop_motion(remove_every=2)` on 6 frames in call order
outputs, at indices 2 and 4, the input frames of indices 1 and 3 (the
last retained frame), and passes indices 0, 1, 3, 5 through unchanged;
at index 0 the trigger holds but nothing was retained yet, so the frame
passes through.  (Stated for arbitrary frames, so in particular for
distinct ones.) -/
theorem c5_stop_motion_every_2 {α : Type} (f0 f1 f2 f3 f4 f5 : α) :
    stop_motion 2 [f0, f1, f2, f3, f4, f5] = [f0, f1, f1, f3, f3, f5] := rfl

/-- Claim C6: `photo_movement(duplicate_every=2)` on 6 frames triggers at
call-order indices 0 and 3: outputs 0, 1, 2 are all input frame 0, output
3 is input frame 3 shown fresh, and outputs 4 and 5 repeat input frame 3;
the hold counter decrements on each call until it reaches zero. -/
theorem c6_photo_movement_every_2 {α : Type} (f0 f1 f2 f3 f4 f5 : α) :
    photo_movement 2 [f0, f1, f2, f3, f4, f5] = [f0, f0, f0, f3, f3, f3] := rfl

theorem afterFirst_eq_none_iff (c : Char) (t : List Char) :
    afterFirst c t = none ↔ c ∉ t := by
  induction t with
  | nil => simp [afterFirst]
  | cons x xs ih =>
    by_cases hx : x = c
    · subst hx
      simp [afterFirst]
    · simp [afterFirst, hx, ih]
      intro hc
      exact fun he => hx he.symm

theorem splitOnAt_ne_nil (c : Char) (t : List Char) : splitOnAt c t ≠ [] := by
  cases t with
  | nil => simp [splitOnAt]
  | cons x xs =>
    unfold splitOnAt
    split
    · exact List.cons_ne_nil _ _
    · split <;> exact List.cons_ne_nil _ _

theorem splitOnAt_of_not_mem (c : Char) (t : List Char) (h : c ∉ t) :
    splitOnAt c t = [t] := by
  induction t with
  | nil => rfl
  | cons x xs ih =>
    have hx : ¬ x = c := fun he => h (he ▸ List.mem_cons_self x xs)
    have hxs : c ∉ xs := fun hm => h (List.mem_cons_of_mem x hm)
    simp [splitOnAt, hx, ih hxs]

theorem splitOnAt_structure (c : Char) (t r : List Char)
    (h : afterFirst c t = some r) :
    ∃ nm, splitOnAt c t = nm :: splitOnAt c r ∧ c ∉ nm ∧ t = nm ++ c :: r := by
  induction t with
  | nil => cases h
  | cons x xs ih =>
    by_cases hx : x = c
    · subst hx
      rw [afterFirst, if_pos rfl] at h
      injection h with h
      subst h
      exact ⟨[], by simp [splitOnAt], by simp, by simp⟩
    · rw [afterFirst, if_neg hx] at h
      obtain ⟨nm, h1, h2, h3⟩ := ih h
      refine ⟨x :: nm, ?_, ?_, by simp [h3]⟩
      · simp [splitOnAt, hx, h1]
      · simp only [List.mem_cons, not_or]
        exact ⟨fun he => hx he.symm, h2⟩

theorem validateIndexesAux_cons (n : ℕ) (used : List ℕ) (t : Name) (ts : List Name) :
    (goodBinding n used t = true ∧
      validateIndexesAux n used (t :: ts) =
        validateIndexesAux n (used ++ [bindingIndex t]) ts) ∨
    (goodBinding n used t = false ∧
      ∃ e, validateIndexesAux n used (t :: ts) = Except.error e ∧
        validateIndexesAux n used [t] = Except.error e) := by
  cases haf : afterFirst '@' t with
  | none =>
    have hnotin : '@' ∉ t := (afterFirst_eq_none_iff '@' t).mp haf
    right
    refine ⟨by simp [goodBinding, haf], .format t, ?_, ?_⟩ <;>
      simp [validateIndexesAux, hnotin]
  | some rest =>
    obtain ⟨nm, hsplit, hnm, hteq⟩ := splitOnAt_structure '@' t rest haf
    have hin : '@' ∈ t := by
      rw [hteq]
      simp
    by_cases hemp : rest = []
    · subst hemp
      right
      have hsplit2 : splitOnAt '@' t = [nm, []] := by rw [hsplit]; rfl
      refine ⟨by simp [goodBinding, haf], .format t, ?_, ?_⟩ <;>
        simp [validateIndexesAux, hsplit2]
    · by_cases hdig : rest.all Char.isDigit
      · have hna : '@' ∉ rest := by
          intro hm
          have := List.all_eq_true.mp hdig '@' hm
          exact absurd this (by decide)
        have hsplit2 : splitOnAt '@' t = [nm, rest] := by
          rw [hsplit, splitOnAt_of_not_mem '@' rest hna]
        by_cases hrange : 1 ≤ natOfDigits rest ∧ natOfDigits rest < n
        · by_cases hdup : natOfDigits rest ∈ used
          · right
            refine ⟨by simp [goodBinding, haf, List.elem_iff, hdup],
              .duplicate (natOfDigits rest), ?_, ?_⟩ <;>
              simp [validateIndexesAux, hsplit2, hin, hemp, hdig, hrange, hdup]
          · left
            constructor
            · simp [goodBinding, haf, hemp, hdig, hrange, List.elem_iff, hdup]
            · simp [validateIndexesAux, hsplit2, hin, hemp, hdig, hrange, hdup,
                bindingIndex, haf]
        · right
          refine ⟨by simp [goodBinding, haf, hrange],
            .outOfBounds (natOfDigits rest), ?_, ?_⟩ <;>
            simp [validateIndexesAux, hsplit2, hin, hemp, hdig, hrange]
      · right
        have hgb : goodBinding n used t = false := by simp [goodBinding, haf, hdig]
        by_cases hna : '@' ∈ rest
        · obtain ⟨r2, har2⟩ : ∃ r2, afterFirst '@' rest = some r2 := by
            cases h2 : afterFirst '@' rest with
            | none => exact absurd hna ((afterFirst_eq_none_iff _ _).mp h2)
            | some r2 => exact ⟨r2, rfl⟩
          obtain ⟨nm2, hsp2, _, _⟩ := splitOnAt_structure '@' rest r2 har2
          rcases hw : splitOnAt '@' r2 with _ | ⟨w, ws⟩
          · exact absurd hw (splitOnAt_ne_nil '@' r2)
          · have hsplit2 : splitOnAt '@' t = nm :: nm2 :: w :: ws := by
              rw [hsplit, hsp2, hw]
            by_cases hnm2 : nm2 = []
            · refine ⟨hgb, .format t, ?_, ?_⟩ <;>
                simp [validateIndexesAux, hsplit2, hnm2]
            · refine ⟨hgb, .unpack t, ?_, ?_⟩ <;>
                simp [validateIndexesAux, hsplit2, hnm2, hin]
        · have hsplit2 : splitOnAt '@' t = [nm, rest] := by
            rw [hsplit, splitOnAt_of_not_mem '@' rest hna]
          refine ⟨hgb, .notANumber t, ?_, ?_⟩ <;>
            simp [validateIndexesAux, hsplit2, hin, hemp, hdig]

theorem validateIndexesAux_ok_iff (n : ℕ) (toks : List Name) : ∀ used,
    validateIndexesAux n used toks = Except.ok () ↔ seqGood n used toks = true := by
  induction toks with
  | nil =>
    intro used
    simp [validateIndexesAux, seqGood]
  | cons t ts ih =>
    intro used
    rcases validateIndexesAux_cons n used t ts with ⟨hg, heq⟩ | ⟨hg, e, he, _⟩
    · rw [heq]
      simp only [seqGood, hg, Bool.true_and]
      exact ih _
    · rw [he]
      simp [seqGood, hg]

/-- Claim C3: junction-binding validation accepts exactly when each
binding's token has an `@` whose trailing portion is a non-empty all-digit
index `i` with `1 ≤ i < clip_count` not used by an earlier binding
(`seqGood` transcribes those words); an offending binding raises an error
immediately, unaffected by later bindings; and for clip_count = 3 the
listed examples validate or raise exactly the claimed errors. -/
theorem c3_junction_validation :
    (∀ n toks, validate_indexes toks n = Except.ok () ↔ seqGood n [] toks = true) ∧
    (∀ n used t ts, goodBinding n used t = false →
      ∃ e, validateIndexesAux n used (t :: ts) = Except.error e ∧
        validateIndexesAux n used [t] = Except.error e) ∧
    validate_indexes [("x@1").data] 3 = Except.ok () ∧
    validate_indexes [("x@2").data] 3 = Except.ok () ∧
    validate_indexes [("x@0").data] 3 = Except.error (.outOfBounds 0) ∧
    validate_indexes [("x@3").data] 3 = Except.error (.outOfBounds 3) ∧
    validate_indexes [("x@1").data, ("y@1").data] 3 = Except.error (.duplicate 1) ∧
    validate_indexes [("x@abc").data] 3 = Except.error (.notANumber ("x@abc").data) ∧
    validate_indexes [("x").data] 3 = Except.error (.format ("x").data) := by
  refine ⟨?_, ?_, by rfl, by rfl, by rfl, by rfl, by rfl, by rfl, by rfl⟩
  · intro n toks
    exact validateIndexesAux_ok_iff n toks []
  · intro n used t ts hbad
    rcases validateIndexesAux_cons n used t ts with ⟨hg, _⟩ | ⟨_, e, he1, he2⟩
    · rw [hbad] at hg
      cases hg
    · exact ⟨e, he1, he2⟩

theorem c3_junction_validation_witness :
    validate_indexes [("a@1").data] 2 = Except.ok () ∧
    (∃ e, validateIndexesAux 3 [] [("zz").data, ("a@1").data] = Except.error e ∧
      validateIndexesAux 3 [] [("zz").data] = Except.error e) :=
  ⟨(c3_junction_validation.1 2 [("a@1").data]).mpr (by rfl),
   c3_junction_validation.2.1 3 [] ("zz").data [("a@1").data] (by decide)⟩

theorem joinC_mem (sep : Name) (l : List Name) (x : Name) (hx : x ∈ l) :
    ∃ a b, joinC sep l = a ++ (x ++ b) := by
  induction l with
  | nil => cases hx
  | cons n rest ih =>
    cases rest with
    | nil =>
      rw [List.mem_singleton.mp hx]
      exact ⟨[], [], by simp [joinC]⟩
    | cons m rest2 =>
      rcases List.mem_cons.mp hx with rfl | hx2
      · exact ⟨[], sep ++ joinC sep (m :: rest2), by simp [joinC]⟩
      · obtain ⟨a, b, hab⟩ := ih hx2
        exact ⟨n ++ sep ++ a, b, by simp [joinC, hab]⟩

theorem validate_filters_ok_iff (ns : List Name) :
    validate_filters ns = Except.ok () ↔ ∀ n ∈ ns, n ∈ FILTER_REGISTRY := by
  have hiff : (ns.filter fun n => !(FILTER_REGISTRY.contains n)).isEmpty = true ↔
      ∀ n ∈ ns, n ∈ FILTER_REGISTRY := by
    rw [List.isEmpty_iff, List.filter_eq_nil_iff]
    simp
  unfold validate_filters
  dsimp only
  split_ifs with hc
  · exact ⟨(fun _ => hiff.mp hc), (fun _ => rfl)⟩
  · exact ⟨(fun h => by cases h), (fun hall => absurd (hiff.mpr hall) hc)⟩

theorem validate_effects_ok_iff (ns : List Name) :
    validate_effects ns = Except.ok () ↔ ∀ n ∈ ns, n ∈ EFFECTS_REGISTRY := by
  have hiff : (ns.filter fun n => !(EFFECTS_REGISTRY.contains n)).isEmpty = true ↔
      ∀ n ∈ ns, n ∈ EFFECTS_REGISTRY := by
    rw [List.isEmpty_iff, List.filter_eq_nil_iff]
    simp
  unfold validate_effects
  dsimp only
  split_ifs with hc
  · exact ⟨(fun _ => hiff.mp hc), (fun _ => rfl)⟩
  · exact ⟨(fun h => by cases h), (fun hall => absurd (hiff.mpr hall) hc)⟩

theorem validate_filters_error_mem (ns : List Name) (msg : Name)
    (h : validate_filters ns = Except.error msg) :
    (∀ n ∈ ns, n ∉ FILTER_REGISTRY → ∃ a b, msg = a ++ (n ++ b)) ∧
    (∀ v ∈ FILTER_REGISTRY, ∃ a b, msg = a ++ (v ++ b)) := by
  unfold validate_filters at h
  dsimp only at h
  split_ifs at h with hc
  rw [Except.error.injEq] at h
  subst h
  constructor
  · intro n hn hnot
    have hmem : n ∈ ns.filter fun m => !(FILTER_REGISTRY.contains m) :=
      List.mem_filter.mpr ⟨hn, by simp [hnot]⟩
    obtain ⟨a, b, hab⟩ := joinC_mem (", ").data _ n hmem
    refine ⟨("Invalid filters: ").data ++ a,
      b ++ (". Valid filters are: ").data ++ joinC (", ").data FILTER_REGISTRY, ?_⟩
    rw [hab]
    simp
  · intro v hv
    obtain ⟨a, b, hab⟩ := joinC_mem (", ").data _ v hv
    refine ⟨("Invalid filters: ").data ++
      joinC (", ").data (ns.filter fun m => !(FILTER_REGISTRY.contains m)) ++
      (". Valid filters are: ").data ++ a, b, ?_⟩
    rw [hab]
    simp

theorem validate_effects_error_mem (ns : List Name) (msg : Name)
    (h : validate_effects ns = Except.error msg) :
    (∀ n ∈ ns, n ∉ EFFECTS_REGISTRY → ∃ a b, msg = a ++ (n ++ b)) ∧
    (∀ v ∈ EFFECTS_REGISTRY, ∃ a b, msg = a ++ (v ++ b)) := by
  unfold validate_effects at h
  dsimp only at h
  split_ifs at h with hc
  rw [Except.error.injEq] at h
  subst h
  constructor
  · intro n hn hnot
    have hmem : n ∈ ns.filter fun m => !(EFFECTS_REGISTRY.contains m) :=
      List.mem_filter.mpr ⟨hn, by simp [hnot]⟩
    obtain ⟨a, b, hab⟩ := joinC_mem (", ").data _ n hmem
    refine ⟨("Invalid effects: ").data ++ a,
      b ++ (". Valid effects are: ").data ++ joinC (", ").data EFFECTS_REGISTRY, ?_⟩
    rw [hab]
    simp
  · intro v hv
    obtain ⟨a, b, hab⟩ := joinC_mem (", ").data _ v hv
    refine ⟨("Invalid effects: ").data ++
      joinC (", ").data (ns.filter fun m => !(EFFECTS_REGISTRY.contains m)) ++
      (". Valid effects are: ").data ++ a, b, ?_⟩
    rw [hab]
    simp

theorem validate_unregistered_error (s : Name) (hs : s ∉ FILTER_REGISTRY) :
    ∃ msg, validate_filters [s] = Except.error msg ∧ ∃ a b, msg = a ++ (s ++ b) := by
  have hne : validate_filters [s] ≠ Except.ok () := fun h =>
    hs ((validate_filters_ok_iff [s]).mp h s (List.mem_singleton_self s))
  cases hv : validate_filters [s] with
  | ok u => cases u; exact absurd hv hne
  | error msg =>
    exact ⟨msg, rfl,
      (validate_filters_error_mem [s] msg hv).1 s (List.mem_singleton_self s) hs⟩

/-- Claim C7: for every list of requested filter (or effect) names,
validation succeeds exactly when every name is registered; on failure the
error message contains every invalid requested name and every registered
name; `validate([N])` succeeds for each registered name `N`; and
`validate([s])` for an unregistered `s` fails with an error listing `s`
("contains" is substring occurrence in the message's character list). -/
theorem c7_name_validation :
    (∀ ns, validate_filters ns = Except.ok () ↔ ∀ n ∈ ns, n ∈ FILTER_REGISTRY) ∧
    (∀ ns msg, validate_filters ns = Except.error msg →
      (∀ n ∈ ns, n ∉ FILTER_REGISTRY → ∃ a b, msg = a ++ (n ++ b)) ∧
      (∀ v ∈ FILTER_REGISTRY, ∃ a b, msg = a ++ (v ++ b))) ∧
    (∀ n ∈ FILTER_REGISTRY, validate_filters [n] = Except.ok ()) ∧
    (∀ s, s ∉ FILTER_REGISTRY →
      ∃ msg, validate_filters [s] = Except.error msg ∧ ∃ a b, msg = a ++ (s ++ b)) ∧
    (∀ ns, validate_effects ns = Except.ok () ↔ ∀ n ∈ ns, n ∈ EFFECTS_REGISTRY) ∧
    (∀ ns msg, validate_effects ns = Except.error msg →
      (∀ n ∈ ns, n ∉ EFFECTS_REGISTRY → ∃ a b, msg = a ++ (n ++ b)) ∧
      (∀ v ∈ EFFECTS_REGISTRY, ∃ a b, msg = a ++ (v ++ b))) ∧
    (∀ n ∈ EFFECTS_REGISTRY, validate_effects [n] = Except.ok ()) := by
  refine ⟨validate_filters_ok_iff, validate_filters_error_mem, ?_,
    validate_unregistered_error, validate_effects_ok_iff,
    validate_effects_error_mem, ?_⟩
  · intro n hn
    exact (validate_filters_ok_iff [n]).mpr (by simpa using hn)
  · intro n hn
    exact (validate_effects_ok_iff [n]).mpr (by simpa using hn)

theorem c7_name_validation_witness :
    validate_filters [("greyscale").data] = Except.ok () ∧
    (∃ msg, validate_filters [("bogus").data] = Except.error msg ∧
      ∃ a b, msg = a ++ (("bogus").data ++ b)) :=
  ⟨c7_name_validation.2.2.1 ("greyscale").data (by decide),
   c7_name_validation.2.2.2.1 ("bogus").data (by decide)⟩

theorem stop_motion_one_aux {α : Type} (inputs : List α) (last : ℤ) :
    runEffect (stopMotionStep 1) ⟨none, last⟩ inputs = inputs := by
  induction inputs generalizing last with
  | nil => rfl
  | cons f fs ih =>
    simp only [runEffect, stopMotionStep, Int.emod_one, if_pos rfl]
    exact congrArg (f :: ·) (ih _)

/-- Claim C10: `stop_motion(remove_every=1)` is the identity effect —
every call takes the replacement branch, which never updates the retained
frame, so the retained frame stays unset and every output equals its
input. -/
theorem c10_stop_motion_one_identity {α : Type} (inputs : List α) :
    stop_motion 1 inputs = inputs :=
  stop_motion_one_aux inputs (-1)

theorem quant8_cast_quant8 (x : ℚ) : quant8 ((quant8 x : ℕ) : ℚ) = quant8 x :=
  quant8_natCast _ (quant8_le x)

theorem quant8_eq_of (q : ℚ) (n : ℕ) (hn : n ≤ 255) (hlo : (n : ℚ) ≤ q)
    (hhi : q < n + 1) : quant8 q = n := by
  have hf : ⌊q⌋ = (n : ℤ) := by
    rw [Int.floor_eq_iff]
    push_cast
    exact ⟨hlo, hhi⟩
  unfold quant8
  rw [hf]
  omega

theorem greyscale_cf1_pix_idem (p : Pix) :
    greyscalePix (299 / 1000) (587 / 1000) (114 / 1000) 1
        (greyscalePix (299 / 1000) (587 / 1000) (114 / 1000) 1 p) =
      greyscalePix (299 / 1000) (587 / 1000) (114 / 1000) 1 p := by
  unfold greyscalePix
  dsimp only
  have key : ∀ q : ℕ,
      ((299 / 1000 : ℚ) * q + (587 / 1000) * q + (114 / 1000) * q - 128) * 1 + 128
        = (q : ℚ) := by
    intro q
    ring
  rw [key, quant8_cast_quant8]

/-- Claim C8: with contrast_factor = 1, the greyscale filter (default
luminance weights) is idempotent — the weights sum to 1 so a greyscale
frame maps to itself; with the default contrast_factor = 1.3 there is a
frame (a single pixel of value 100) on which applying greyscale twice
differs from applying it once, because the contrast step is re-applied. -/
theorem c8_greyscale_idempotence :
    (∀ frame : Frame,
      greyscale (299 / 1000) (587 / 1000) (114 / 1000) 1
          (greyscale (299 / 1000) (587 / 1000) (114 / 1000) 1 frame) =
        greyscale (299 / 1000) (587 / 1000) (114 / 1000) 1 frame) ∧
    greyscale (299 / 1000) (587 / 1000) (114 / 1000) (13 / 10)
        (greyscale (299 / 1000) (587 / 1000) (114 / 1000) (13 / 10)
          [⟨100, 100, 100⟩]) ≠
      greyscale (299 / 1000) (587 / 1000) (114 / 1000) (13 / 10)
        [⟨100, 100, 100⟩] := by
  constructor
  · intro frame
    induction frame with
    | nil => rfl
    | cons p ps ih =>
      simp only [greyscale, List.map_cons] at ih ⊢
      rw [greyscale_cf1_pix_idem]
      exact congrArg _ (List.map_map _ _ _ ▸ ih)
  · have h1 : greyscalePix (299 / 1000) (587 / 1000) (114 / 1000) (13 / 10)
        ⟨100, 100, 100⟩ = ⟨91, 91, 91⟩ := by
      unfold greyscalePix
      dsimp only
      rw [quant8_eq_of _ 91 (by norm_num) (by norm_num) (by norm_num)]
    have h2 : greyscalePix (299 / 1000) (587 / 1000) (114 / 1000) (13 / 10)
        ⟨91, 91, 91⟩ = ⟨79, 79, 79⟩ := by
      unfold greyscalePix
      dsimp only
      rw [quant8_eq_of _ 79 (by norm_num) (by norm_num) (by norm_num)]
    simp only [greyscale, List.map_cons, List.map_nil, h1, h2]
    intro hcontra
    exact absurd (List.head_eq_of_cons_eq hcontra) (by decide)

theorem pyInt_zero_25 : pyInt ((0 : ℚ) * 25) = 0 := by
  norm_num [pyInt, Int.floor_eq_iff]

theorem pyInt_four_25 : pyInt ((4 : ℚ) * 25) = 100 := by
  norm_num [pyInt, Int.floor_eq_iff]

/-- Claim C1 fails as stated: the ThreeBlocks per-frame function computes
its frame index as `int(t * clip.fps)` from the wall-clock timestamp, so
two single-call traversals whose only call (call-order index 0) carries
timestamps 0 and 4 (fps 25) produce different reveal states — the reveal
thresholds do not fire at fixed call-order indices regardless of the
timestamps supplied. -/
theorem c1_counterexample :
    threeBlocksRun (postInit ones5) 25 [(0, zeros5)] ≠
      threeBlocksRun (postInit ones5) 25 [(4, zeros5)] := by
  have e1 : threeBlocksFilter (postInit ones5) 25 zeros5 0 = zeros5 := by
    unfold threeBlocksFilter
    rw [pyInt_zero_25]
    norm_num
  have e2 : threeBlocksFilter (postInit ones5) 25 zeros5 4 =
      pasteBars (postInit ones5) 3
        (pasteBars (postInit ones5) 2 (pasteBars (postInit ones5) 1 zeros5)) := by
    unfold threeBlocksFilter
    rw [pyInt_four_25]
    norm_num
  simp only [threeBlocksRun, List.map_cons, List.map_nil]
  rw [e1, e2]
  decide

/-- Claim C1 (amended): the number of bars revealed by ThreeBlocks is
determined by the frame index `int(t * clip.fps)` computed from the
wall-clock timestamp passed in, not by call order: the output at any call
position is a function of that call's timestamp and source frame alone,
and the cumulative reveals fire at frame-index thresholds 50 (one bar),
70 (two bars) and 100 (three bars). -/
theorem c1_reveal_is_timestamp_driven :
    (∀ (g : TBGeom) (fps : ℚ) (c : ℚ × Mat) (pre post : List (ℚ × Mat)),
      (threeBlocksRun g fps (pre ++ c :: post)).getD pre.length [] =
        threeBlocksFilter g fps c.2 c.1) ∧
    (∀ (g : TBGeom) (fps : ℚ) (fr : Mat) (t : ℚ),
      (pyInt (t * fps) < 50 → threeBlocksFilter g fps fr t = fr) ∧
      (50 ≤ pyInt (t * fps) → pyInt (t * fps) < 70 →
        threeBlocksFilter g fps fr t = pasteBars g 1 fr) ∧
      (70 ≤ pyInt (t * fps) → pyInt (t * fps) < 100 →
        threeBlocksFilter g fps fr t = pasteBars g 2 (pasteBars g 1 fr)) ∧
      (100 ≤ pyInt (t * fps) →
        threeBlocksFilter g fps fr t =
          pasteBars g 3 (pasteBars g 2 (pasteBars g 1 fr)))) := by
  constructor
  · intro g fps c pre post
    unfold threeBlocksRun
    rw [List.map_append, List.map_cons,
      List.getD_append_right _ _ _ _ (by simp)]
    simp
  · intro g fps fr t
    unfold threeBlocksFilter
    dsimp only
    refine ⟨?_, ?_, ?_, ?_⟩
    · intro h1
      rw [if_neg (by omega), if_neg (by omega), if_neg (by omega)]
    · intro h1 h2
      rw [if_neg (by omega), if_neg (by omega), if_pos (by omega)]
    · intro h1 h2
      rw [if_neg (by omega), if_pos (by omega), if_pos (by omega)]
    · intro h1
      rw [if_pos (by omega), if_pos (by omega), if_pos (by omega)]

theorem c1_reveal_is_timestamp_driven_witness :
    threeBlocksFilter (postInit ones5) 25 zeros5 4 =
      pasteBars (postInit ones5) 3
        (pasteBars (postInit ones5) 2 (pasteBars (postInit ones5) 1 zeros5)) :=
  (c1_reveal_is_timestamp_driven.2 (postInit ones5) 25 zeros5 4).2.2.2
    (by simp [pyInt_four_25])

theorem barsLoop_three (block gap cursor : ℕ) :
    barsLoop block gap 3 cursor =
      [(cursor, cursor + block),
       (cursor + block + gap, cursor + block + gap + block),
       (cursor + block + gap + block + gap,
        cursor + block + gap + block + gap + block)] := rfl

/-- Claim C2 fails as stated: for a target-clip first frame of width
W = 5, the code's truncating `int(BAR_RATIO * w)` gives bar width 1 and
gap 0, so the three bar crops span 3 pixels, while the claimed
`3×round(0.30·W) + 2×round(0.02·W)` is 6 (round(1.5) = 2). -/
theorem c2_counterexample :
    ¬ ((barSpan (postInit ones5) : ℤ) =
        3 * round ((30 : ℚ) / 100 * 5) + 2 * round ((2 : ℚ) / 100 * 5)) := by
  have h1 : barSpan (postInit ones5) = 3 := by decide
  have h2 : round ((30 : ℚ) / 100 * 5) = 2 := by norm_num [round_eq]
  have h3 : round ((2 : ℚ) / 100 * 5) = 0 := by
    norm_num [round_eq, Int.floor_eq_iff]
  rw [h1, h2, h3]
  norm_num

/-- Claim C2 (amended): for a target-clip first frame of width W, the
three cached bar crops together span `3×⌊0.30·W⌋ + 2×⌊0.02·W⌋` pixels —
the code truncates (`int(...)`), it does not round to nearest — there are
exactly three cached crops, and the bars are centered so the left margin
equals the right margin to within one pixel. -/
theorem c2_geometry_truncating :
    ∀ frame : Mat,
      barSpan (postInit frame) =
        3 * (30 * (frame.headD []).length / 100) +
          2 * (2 * (frame.headD []).length / 100) ∧
      (postInit frame).frame_crops.length = 3 ∧
      leftMargin (postInit frame) ≤
        rightMargin (frame.headD []).length (postInit frame) ∧
      rightMargin (frame.headD []).length (postInit frame) ≤
        leftMargin (postInit frame) + 1 := by
  intro frame
  have hxs : (postInit frame).xs =
      barsLoop (30 * (frame.headD []).length / 100)
        (2 * (frame.headD []).length / 100) 3
        (((frame.headD []).length -
          (3 * (30 * (frame.headD []).length / 100) +
            2 * (2 * (frame.headD []).length / 100))) / 2) := rfl
  have hcrops : (postInit frame).frame_crops.length = 3 := by
    show ((postInit frame).xs.map _).length = 3
    rw [hxs, barsLoop_three]
    rfl
  generalize hW : (frame.headD []).length = w at hxs ⊢
  have hlast : (postInit frame).xs.getLastD (0, 0) =
      ((w - (3 * (30 * w / 100) + 2 * (2 * w / 100))) / 2 + 30 * w / 100 +
          2 * w / 100 + 30 * w / 100 + 2 * w / 100,
        (w - (3 * (30 * w / 100) + 2 * (2 * w / 100))) / 2 + 30 * w / 100 +
          2 * w / 100 + 30 * w / 100 + 2 * w / 100 + 30 * w / 100) := by
    rw [hxs, barsLoop_three]
    rfl
  have hhead : (postInit frame).xs.headD (0, 0) =
      ((w - (3 * (30 * w / 100) + 2 * (2 * w / 100))) / 2,
        (w - (3 * (30 * w / 100) + 2 * (2 * w / 100))) / 2 + 30 * w / 100) := by
    rw [hxs, barsLoop_three]
    rfl
  refine ⟨?_, hcrops, ?_, ?_⟩ <;>
    · simp only [barSpan, leftMargin, rightMargin, hlast, hhead]
      omega

end VidFX
